import Mathlib

/-!
Shallow embedding of the request-deduplication and suggestion-caching engine
of `GhostInlineCompletionProvider` (classic auto-complete), together with the
debounce scheduler it uses.

Strings are modelled at the character level: the JavaScript operations
`s.startsWith(p)`, `s.substring(n)` and `s.length` become `strStartsWith`,
`strDrop` and `strLen` over `String.data`.

Asynchronous control flow is modelled by splitting `fetchAndCacheSuggestion`
at its suspension points into atomic segments over an explicit `EngineState`:
`startFetch` is the synchronous prelude (reuse search, obsolete-request
cancellation, creation and registration of a new fetch), `settleOwn` is the
body of the fetch promise resuming after the backend call (abort check,
history update, the `finally` registry cleanup, and the produced promise
outcome), `resumeReused` is the continuation of a cycle that awaited a reused
pending fetch, and `resumeOwn` is the continuation of the creating cycle
awaiting its own promise.  Each `AbortController` is identified by the
numeric `id` of its pending fetch; an aborted controller is an id recorded
in `abortedIds`.  `console.error` and `console.warn` calls are counted in
`errorLog` and `warnLog`.
-/

/-- Character-level model of JavaScript `s.startsWith(p)`. -/
def strStartsWith (s p : String) : Bool :=
  List.isPrefixOf p.data s.data

/-- Character-level model of JavaScript `s.substring(n)` (drop `n` leading units). -/
def strDrop (s : String) (n : Nat) : String :=
  String.mk (s.data.drop n)

/-- Character-level model of JavaScript `s.length`. -/
def strLen (s : String) : Nat :=
  s.data.length

/-- `MAX_SUGGESTIONS_HISTORY` from the source. -/
def MAX_SUGGESTIONS_HISTORY : Nat := 20

/-- `DEBOUNCE_DELAY_MS` from the source (the debounce quiet period). -/
def DEBOUNCE_DELAY_MS : Nat := 300

/-- `FillInAtCursorSuggestion`: a completion `text` for the context given by
the text before the cursor (`pre`, named `prefix` in the source, which is a
Lean keyword) and the text after it (`suffix`). -/
structure FillInAtCursorSuggestion where
  text : String
  pre : String
  suffix : String

deriving instance DecidableEq for FillInAtCursorSuggestion

/-- `getCacheKey` from the source: the pending-request registry key. -/
def getCacheKey (p s : String) : String :=
  p ++ "|||" ++ s

/-- `PendingSuggestion` from the source: one in-flight fetch.  The promise and
`AbortController` pair is identified by `id`; `key` is the registry key the
entry was stored under. -/
structure PendingSuggestion where
  key : String
  pre : String
  suffix : String
  id : Nat

deriving instance DecidableEq for PendingSuggestion

/-- Outcome of the backend call (`getFromLLM`), after response parsing and
postprocessing: either the final suggestion text (possibly empty), or a
rejection carrying the thrown error's `name`. -/
inductive FetchOutcome where
  | ok (text : String)
  | err (nm : String)

deriving instance DecidableEq for FetchOutcome

/-- Outcome of a pending fetch's promise as observed by an awaiting cycle:
resolved with an `LLMRetrievalResult` suggestion, or rejected with an error
whose `name` is recorded. -/
inductive PromiseOutcome where
  | resolved (sug : FillInAtCursorSuggestion)
  | rejected (nm : String)

deriving instance DecidableEq for PromiseOutcome

/-- The provider's mutable state: the suggestion history, the pending-request
registry (insertion-ordered, like a JavaScript `Map`), the set of aborted
controllers, a count of Fetch Adapter calls, a fresh-id counter, the
`console.error` / `console.warn` counters, and the debounce scheduler state
(`armed` timer promise id, already-settled promise ids, fresh promise ids). -/
structure EngineState where
  pending : List PendingSuggestion
  history : List FillInAtCursorSuggestion
  abortedIds : List Nat
  fetchCalls : Nat
  nextId : Nat
  errorLog : Nat
  warnLog : Nat
  armed : Option Nat
  settled : List Nat
  nextPromiseId : Nat

deriving instance DecidableEq for EngineState

/-- The freshly constructed provider. -/
def initState : EngineState :=
  { pending := [], history := [], abortedIds := [], fetchCalls := 0, nextId := 0,
    errorLog := 0, warnLog := 0, armed := none, settled := [], nextPromiseId := 0 }

/-- Duplicate test used by `updateSuggestions`: some existing entry has the
same text, prefix and suffix. -/
def isDuplicate (hist : List FillInAtCursorSuggestion) (s : FillInAtCursorSuggestion) : Prop :=
  ∃ e ∈ hist, e.text = s.text ∧ e.pre = s.pre ∧ e.suffix = s.suffix

instance (hist : List FillInAtCursorSuggestion) (s : FillInAtCursorSuggestion) :
    Decidable (isDuplicate hist s) :=
  List.decidableBEx _ hist

/-- `updateSuggestions` from the source: no-op on a structural duplicate,
otherwise append at the most-recent end and drop the oldest entry when the
bound `MAX_SUGGESTIONS_HISTORY` is exceeded. -/
def updateSuggestions (hist : List FillInAtCursorSuggestion)
    (s : FillInAtCursorSuggestion) : List FillInAtCursorSuggestion :=
  if isDuplicate hist s then hist
  else if (hist ++ [s]).length > MAX_SUGGESTIONS_HISTORY then (hist ++ [s]).tail
  else hist ++ [s]

/-- Per-entry check of `findMatchingSuggestion`'s loop body: exact match
returns the stored text; otherwise a typed-ahead match returns the stored
text with the already-typed portion removed; otherwise the scan continues. -/
def matchEntry (p s : String) (e : FillInAtCursorSuggestion) : Option String :=
  if p = e.pre ∧ s = e.suffix then some e.text
  else if e.text ≠ "" ∧ strStartsWith p e.pre ∧ s = e.suffix then
    (if strStartsWith e.text (strDrop p (strLen e.pre)) then
       some (strDrop e.text (strLen (strDrop p (strLen e.pre))))
     else none)
  else none

/-- The scan of `findMatchingSuggestion`, over a most-recent-first list. -/
def findMatchingSuggestionAux (p s : String) :
    List FillInAtCursorSuggestion → Option String
  | [] => none
  | e :: rest =>
    match matchEntry p s e with
    | some t => some t
    | none => findMatchingSuggestionAux p s rest

/-- `findMatchingSuggestion` from the source: scan the history from most
recent (last) to oldest and return the first hit, or `none`. -/
def findMatchingSuggestion (p s : String)
    (hist : List FillInAtCursorSuggestion) : Option String :=
  findMatchingSuggestionAux p s hist.reverse

/-- `stringToInlineCompletions` from the source, reduced to the inserted
texts: an empty text yields an empty completion list. -/
def stringToInlineCompletions (text : String) : List String :=
  if text = "" then [] else [text]

/-- `findReusablePendingRequest` from the source: exact registry-key match
first, then the first pending entry (in registry iteration order) with the
same suffix whose prefix the incoming prefix extends. -/
def findReusablePendingRequest (p s : String)
    (reg : List PendingSuggestion) : Option PendingSuggestion :=
  match reg.find? (fun e => e.key == getCacheKey p s) with
  | some e => some e
  | none => reg.find? (fun e => e.suffix == s && strStartsWith p e.pre)

/-- The obsolescence test of `fetchAndCacheSuggestion`'s cancellation loop:
different suffix, or prefixes that have diverged (neither extends the other). -/
def isObsolete (p s : String) (e : PendingSuggestion) : Bool :=
  !(e.suffix == s) || (!(strStartsWith p e.pre) && !(strStartsWith e.pre p))

/-- The cancellation loop of `fetchAndCacheSuggestion`: abort every obsolete
pending fetch and remove it from the registry immediately. -/
def cancelObsolete (p s : String) (st : EngineState) : EngineState :=
  { st with
    pending := st.pending.filter (fun e => !(isObsolete p s e)),
    abortedIds := st.abortedIds ++ (st.pending.filter (fun e => isObsolete p s e)).map PendingSuggestion.id }

/-- Registry removal, modelling `Map.delete` on the key. -/
def eraseKey (reg : List PendingSuggestion) (k : String) : List PendingSuggestion :=
  reg.filter (fun e => !(e.key == k))

/-- Registry insertion, modelling `Map.set`: replace in place when the key is
present, else append in iteration order. -/
def setEntry (reg : List PendingSuggestion) (f : PendingSuggestion) : List PendingSuggestion :=
  if reg.any (fun e => e.key == f.key) then
    reg.map (fun e => if e.key == f.key then f else e)
  else reg ++ [f]

/-- Creation and registration of a new pending fetch: the Fetch Adapter call
is issued (the promise body runs to its first await), the entry is stored in
the registry, and the fresh-controller counter advances. -/
def createFetch (p s : String) (st : EngineState) : EngineState :=
  { st with
    pending := setEntry st.pending ⟨getCacheKey p s, p, s, st.nextId⟩,
    fetchCalls := st.fetchCalls + 1,
    nextId := st.nextId + 1 }

/-- Result of `fetchAndCacheSuggestion`'s synchronous prelude: either an
in-flight fetch was reused, or a new one was created. -/
inductive StartResult where
  | reused (e : PendingSuggestion)
  | created (f : PendingSuggestion)

deriving instance DecidableEq for StartResult

/-- The synchronous prelude of `fetchAndCacheSuggestion`: reuse search; on a
miss, cancel obsolete in-flight work and then create and register the new
fetch. -/
def startFetch (p s : String) (st : EngineState) : EngineState × StartResult :=
  match findReusablePendingRequest p s st.pending with
  | some e => (st, StartResult.reused e)
  | none =>
    let st1 := cancelObsolete p s st
    (createFetch p s st1, StartResult.created ⟨getCacheKey p s, p, s, st1.nextId⟩)

/-- The promise body of a pending fetch `f` resuming after its backend call
returns (`getFromLLM`): on success, if `f`'s controller was aborted the body
throws `Error("Request aborted after completion")` — whose `name` is
`"Error"` — otherwise it reports cost and appends the suggestion (even an
empty one) to the history; on adapter failure the error propagates.  In every
case the `finally` step removes the registry entry under `f.key`.  The second
component is the outcome the promise delivers to its awaiters. -/
def settleOwn (f : PendingSuggestion) (o : FetchOutcome) (st : EngineState) :
    EngineState × PromiseOutcome :=
  match o with
  | FetchOutcome.ok text =>
    if f.id ∈ st.abortedIds then
      ({ st with pending := eraseKey st.pending f.key }, PromiseOutcome.rejected "Error")
    else
      ({ st with
         history := updateSuggestions st.history ⟨text, f.pre, f.suffix⟩,
         pending := eraseKey st.pending f.key },
       PromiseOutcome.resolved ⟨text, f.pre, f.suffix⟩)
  | FetchOutcome.err nm =>
    ({ st with pending := eraseKey st.pending f.key }, PromiseOutcome.rejected nm)

/-- The continuation of a `fetchAndCacheSuggestion` cycle for context
`(p, s)` that awaited the reused pending fetch `e`: on resolution, stop if
`e` was aborted, otherwise store the (possibly typed-ahead-adjusted) result;
on a rejection named `"AbortError"` stop silently; on any other rejection log
a warning and fall through to cancel obsolete work and create a new fetch. -/
def resumeReused (p s : String) (e : PendingSuggestion) (o : PromiseOutcome)
    (st : EngineState) : EngineState :=
  match o with
  | PromiseOutcome.resolved sug =>
    if e.id ∈ st.abortedIds then st
    else if strStartsWith p e.pre && !(p == e.pre) then
      (if strStartsWith sug.text (strDrop p (strLen e.pre)) then
         { st with history := updateSuggestions st.history
                     (FillInAtCursorSuggestion.mk
                       (strDrop sug.text (strLen (strDrop p (strLen e.pre)))) p s) }
       else { st with history := updateSuggestions st.history sug })
    else { st with history := updateSuggestions st.history sug }
  | PromiseOutcome.rejected nm =>
    if nm = "AbortError" then st
    else createFetch p s (cancelObsolete p s { st with warnLog := st.warnLog + 1 })

/-- The continuation of the cycle that created its own fetch, resuming from
`await promise`: a rejection named `"AbortError"` is ignored silently, any
other rejection is logged with `console.error`; nothing is rethrown, so
`fetchAndCacheSuggestion` never rejects. -/
def resumeOwn (o : PromiseOutcome) (st : EngineState) : EngineState :=
  match o with
  | PromiseOutcome.resolved _ => st
  | PromiseOutcome.rejected nm =>
    if nm = "AbortError" then st else { st with errorLog := st.errorLog + 1 }

/-- `dispose` from the source: clear the armed debounce timer without firing
it, abort every pending fetch's controller, and clear the registry.  It is a
total function of the state: no path throws. -/
def dispose (st : EngineState) : EngineState :=
  { st with
    armed := none,
    abortedIds := st.abortedIds ++ st.pending.map PendingSuggestion.id,
    pending := [] }

/-- `debouncedFetchAndCacheSuggestion`'s scheduling step: clear any armed
timer (whose promise is thereby orphaned) and arm a fresh timer whose
eventual firing resolves a fresh promise. -/
def scheduleDebounce (st : EngineState) : EngineState :=
  { st with armed := some st.nextPromiseId, nextPromiseId := st.nextPromiseId + 1 }

/-- The armed debounce timer firing: run the fetch-and-cache cycle for the
latest context and resolve the promise of the scheduling call that armed the
timer.  With no armed timer nothing happens. -/
def fireDebounce (p s : String) (st : EngineState) : EngineState :=
  match st.armed with
  | none => st
  | some pid =>
    let st1 := (startFetch p s { st with armed := none }).1
    { st1 with settled := pid :: st1.settled }

/-- `provideInlineCompletionItems_Internal`'s cache interaction: on a matcher
hit, return the completions immediately with no further effect; on a miss,
schedule the debounced fetch (the completion list is delivered only after the
scheduled cycle's promise settles). -/
def provideStep (p s : String) (st : EngineState) : Option (List String) × EngineState :=
  match findMatchingSuggestion p s st.history with
  | some t => (some (stringToInlineCompletions t), st)
  | none => (none, scheduleDebounce st)

/-- Events of the cooperative scheduler: each is one atomic segment of the
engine between suspension points. -/
inductive Event where
  | schedule
  | fire (p s : String)
  | trigger (p s : String)
  | settle (f : PendingSuggestion) (o : FetchOutcome)
  | resume (p s : String) (e : PendingSuggestion) (o : PromiseOutcome)
  | resumeOwnEv (o : PromiseOutcome)
  | disposeEv

/-- Apply one event to the state. -/
def step : Event → EngineState → EngineState
  | Event.schedule, st => scheduleDebounce st
  | Event.fire p s, st => fireDebounce p s st
  | Event.trigger p s, st => (startFetch p s st).1
  | Event.settle f o, st => (settleOwn f o st).1
  | Event.resume p s e o, st => resumeReused p s e o st
  | Event.resumeOwnEv o, st => resumeOwn o st
  | Event.disposeEv, st => dispose st

/-- Run a sequence of events. -/
def run (evs : List Event) (st : EngineState) : EngineState :=
  evs.foldl (fun s ev => step ev s) st


/-- Restatement of the matcher's per-entry rule in the words of the
specification, for comparison with the source translation `matchEntry`. -/
def hitResult (p s : String) (e : FillInAtCursorSuggestion) : Option String :=
  if e.pre = p ∧ e.suffix = s then some e.text
  else if e.text ≠ "" ∧ e.suffix = s ∧ strStartsWith p e.pre
          ∧ strStartsWith e.text (strDrop p (strLen e.pre)) then
    some (strDrop e.text (strLen (strDrop p (strLen e.pre))))
  else none

/-- Restatement of the matcher in the words of the specification: scan from
most recent to oldest and return the first entry that hits. -/
def findMatchingSuggestionSpec (p s : String)
    (hist : List FillInAtCursorSuggestion) : Option String :=
  hist.reverse.findSome? (hitResult p s)

theorem matchEntry_eq_hitResult (p s : String) (e : FillInAtCursorSuggestion) :
    matchEntry p s e = hitResult p s e := by
  unfold matchEntry hitResult
  by_cases h1 : p = e.pre ∧ s = e.suffix
  · obtain ⟨h1a, h1b⟩ := h1
    subst h1a; subst h1b
    simp
  · rw [if_neg h1]
    rw [if_neg (show ¬(e.pre = p ∧ e.suffix = s) from fun h => h1 ⟨h.1.symm, h.2.symm⟩)]
    by_cases h2 : e.text ≠ "" ∧ strStartsWith p e.pre = true ∧ s = e.suffix
    · rw [if_pos h2]
      by_cases h3 : strStartsWith e.text (strDrop p (strLen e.pre)) = true
      · rw [if_pos h3]
        rw [if_pos (show e.text ≠ "" ∧ e.suffix = s ∧ strStartsWith p e.pre = true
              ∧ strStartsWith e.text (strDrop p (strLen e.pre)) = true from
              ⟨h2.1, h2.2.2.symm, h2.2.1, h3⟩)]
      · rw [if_neg h3]
        rw [if_neg (show ¬(e.text ≠ "" ∧ e.suffix = s ∧ strStartsWith p e.pre = true
              ∧ strStartsWith e.text (strDrop p (strLen e.pre)) = true) from
              fun h => h3 h.2.2.2)]
    · rw [if_neg h2]
      rw [if_neg (show ¬(e.text ≠ "" ∧ e.suffix = s ∧ strStartsWith p e.pre = true
            ∧ strStartsWith e.text (strDrop p (strLen e.pre)) = true) from
            fun h => h2 ⟨h.1, h.2.2.1, h.2.1.symm⟩)]

theorem findMatchingSuggestionAux_eq_findSome? (p s : String) :
    ∀ l, findMatchingSuggestionAux p s l = l.findSome? (hitResult p s) := by
  intro l
  induction l with
  | nil => rfl
  | cons e rest ih =>
    show (match matchEntry p s e with
          | some t => some t
          | none => findMatchingSuggestionAux p s rest) = _
    rw [List.findSome?_cons, matchEntry_eq_hitResult]
    cases hitResult p s e with
    | some t => rfl
    | none => exact ih

/-- Claim C4: `findMatchingSuggestion` scans the history from most recent to
oldest and returns, for the first entry that hits, the exact-match text or
the typed-ahead remainder, and `none` when no entry hits — it agrees with
the specification's matcher on every input; and the provider's fast path
built on it returns its result without modifying any state. -/
theorem c4_matcher_follows_spec :
    (∀ p s hist, findMatchingSuggestion p s hist = findMatchingSuggestionSpec p s hist)
    ∧ (∀ p s (st : EngineState) t, findMatchingSuggestion p s st.history = some t →
        provideStep p s st = (some (stringToInlineCompletions t), st)) := by
  constructor
  · intro p s hist
    unfold findMatchingSuggestion findMatchingSuggestionSpec
    exact findMatchingSuggestionAux_eq_findSome? p s hist.reverse
  · intro p s st t h
    unfold provideStep
    rw [h]

/-- A concrete engine state used to instantiate C4's fast-path statement. -/
def stC4 : EngineState :=
  { initState with history := [⟨"bcd", "a", "s"⟩] }

/-- Closed instance of C4 at a concrete typed-ahead history entry. -/
theorem c4_matcher_follows_spec_witness :
    provideStep "ab" "s" stC4 = (some ["cd"], stC4) :=
  c4_matcher_follows_spec.2 "ab" "s" stC4 "cd" (by decide)

theorem not_isDuplicate_not_mem {hist : List FillInAtCursorSuggestion}
    {x : FillInAtCursorSuggestion} (h : ¬ isDuplicate hist x) : x ∉ hist :=
  fun hmem => h ⟨x, hmem, rfl, rfl, rfl⟩

theorem updateSuggestions_append_nodup {hist : List FillInAtCursorSuggestion}
    {x : FillInAtCursorSuggestion} (hnd : hist.Nodup) (h : ¬ isDuplicate hist x) :
    (hist ++ [x]).Nodup := by
  rw [List.nodup_append]
  refine ⟨hnd, List.nodup_singleton x, ?_⟩
  intro a ha hb
  simp only [List.mem_singleton] at hb
  subst hb
  exact not_isDuplicate_not_mem h ha

/-- A concrete supply of pairwise-distinct suggestions. -/
def c6Entry (i : Nat) : FillInAtCursorSuggestion :=
  ⟨toString i, "p", "s"⟩

/-- Twenty-five pairwise-distinct suggestions. -/
def c6List : List FillInAtCursorSuggestion :=
  (List.range 25).map c6Entry

/-- Claim C6: the suggestion history stays within the 20-entry bound, stays free of
structurally identical duplicates, `updateSuggestions` is a no-op on a
duplicate, a distinct insertion at capacity evicts the oldest entry, and
inserting 25 distinct suggestions into an empty history leaves exactly the
latest 20. -/
theorem c6_history_bounded_nodup :
    (∀ hist x, hist.length ≤ MAX_SUGGESTIONS_HISTORY →
        (updateSuggestions hist x).length ≤ MAX_SUGGESTIONS_HISTORY)
    ∧ (∀ hist x, hist.Nodup → (updateSuggestions hist x).Nodup)
    ∧ (∀ hist x, isDuplicate hist x → updateSuggestions hist x = hist)
    ∧ (∀ hist x, ¬ isDuplicate hist x → hist.length = MAX_SUGGESTIONS_HISTORY →
        updateSuggestions hist x = hist.tail ++ [x])
    ∧ c6List.foldl updateSuggestions [] = ((List.range 25).drop 5).map c6Entry := by
  refine ⟨?_, ?_, ?_, ?_, by decide⟩
  · intro hist x hlen
    unfold updateSuggestions
    split
    · exact hlen
    · split
      · next hgt =>
        simp only [List.length_tail, List.length_append, List.length_singleton]
        omega
      · next hle =>
        simp only [List.length_append, List.length_singleton] at hle ⊢
        omega
  · intro hist x hnd
    unfold updateSuggestions
    split
    · exact hnd
    · next hdup =>
      split
      · exact (updateSuggestions_append_nodup hnd hdup).sublist (List.tail_sublist _)
      · exact updateSuggestions_append_nodup hnd hdup
  · intro hist x hdup
    unfold updateSuggestions
    rw [if_pos hdup]
  · intro hist x hdup hlen
    unfold updateSuggestions
    rw [if_neg hdup, if_pos (by simp only [List.length_append, List.length_singleton]; omega)]
    cases hist with
    | nil => simp [MAX_SUGGESTIONS_HISTORY] at hlen
    | cons a t => simp

/-- Closed instance of C6 at concrete histories. -/
theorem c6_history_bounded_nodup_witness :
    (updateSuggestions [⟨"t", "p", "s"⟩] ⟨"t", "p", "s"⟩ = [⟨"t", "p", "s"⟩])
    ∧ (updateSuggestions [⟨"t", "p", "s"⟩] ⟨"u", "p", "s"⟩).Nodup :=
  ⟨c6_history_bounded_nodup.2.2.1 _ _ (by decide),
   c6_history_bounded_nodup.2.1 _ _ (by decide)⟩

/-- Claim C1: the reuse search takes an exact registry-key match first, otherwise
the first pending entry in registry iteration order with the same suffix
whose prefix is a prefix of the incoming one; a reusing invocation of
`fetchAndCacheSuggestion` leaves the state untouched — in particular it makes
no Fetch Adapter call — and two identical triggers before either completes
produce exactly one Fetch Adapter call. -/
theorem c1_reuse_dedup :
    (∀ p s (reg : List PendingSuggestion) e,
        reg.find? (fun x => x.key == getCacheKey p s) = some e →
        findReusablePendingRequest p s reg = some e)
    ∧ (∀ p s (reg : List PendingSuggestion),
        reg.find? (fun x => x.key == getCacheKey p s) = none →
        findReusablePendingRequest p s reg =
          reg.find? (fun x => x.suffix == s && strStartsWith p x.pre))
    ∧ (∀ p s (st : EngineState) e,
        findReusablePendingRequest p s st.pending = some e →
        startFetch p s st = (st, StartResult.reused e))
    ∧ (startFetch "const x = " "S" ((startFetch "const x = " "S" initState).1)).1.fetchCalls
        = 1 := by
  refine ⟨?_, ?_, ?_, by decide⟩
  · intro p s reg e h
    unfold findReusablePendingRequest
    rw [h]
  · intro p s reg h
    unfold findReusablePendingRequest
    rw [h]
  · intro p s st e h
    unfold startFetch
    rw [h]

/-- A concrete engine state holding one pending fetch, used to instantiate
C1's reuse statement. -/
def stC1 : EngineState :=
  { initState with
    pending := [⟨getCacheKey "a" "b", "a", "b", 0⟩], fetchCalls := 1, nextId := 1 }

/-- Closed instance of C1: an exact-key reuse changes nothing. -/
theorem c1_reuse_dedup_witness :
    startFetch "a" "b" stC1 = (stC1, StartResult.reused ⟨getCacheKey "a" "b", "a", "b", 0⟩) :=
  c1_reuse_dedup.2.2.1 "a" "b" stC1 ⟨getCacheKey "a" "b", "a", "b", 0⟩ (by decide)

/-- Claim C2: when a reused fetch resolves and the incoming prefix strictly extends
the reused one, a result whose text starts with the typed-ahead portion is
stored adjusted under the incoming context; a result whose text does not is
stored unadjusted under the reused fetch's own context; with equal prefixes
the result is stored as-is; and the concrete test scenario — backend text
for prefix "const x = f", user typed "un" — yields "ction test() {}". -/
theorem c2_typed_ahead_adjustment :
    (∀ p s (e : PendingSuggestion) sug (st : EngineState),
        e.id ∉ st.abortedIds →
        strStartsWith p e.pre = true → p ≠ e.pre →
        ((strStartsWith sug.text (strDrop p (strLen e.pre)) = true →
           resumeReused p s e (PromiseOutcome.resolved sug) st =
             { st with history := updateSuggestions st.history
                                    (FillInAtCursorSuggestion.mk
                                      (strDrop sug.text (strLen (strDrop p (strLen e.pre)))) p s) })
         ∧ (strStartsWith sug.text (strDrop p (strLen e.pre)) = false →
             sug.pre = e.pre → sug.suffix = e.suffix →
             resumeReused p s e (PromiseOutcome.resolved sug) st =
               { st with history := updateSuggestions st.history sug })))
    ∧ (∀ s (e : PendingSuggestion) sug (st : EngineState),
        e.id ∉ st.abortedIds →
        resumeReused e.pre s e (PromiseOutcome.resolved sug) st =
          { st with history := updateSuggestions st.history sug })
    ∧ (resumeReused "const x = fun" "S"
         ⟨getCacheKey "const x = f" "S", "const x = f", "S", 0⟩
         (PromiseOutcome.resolved ⟨"unction test() \x7b\x7d", "const x = f", "S"⟩)
         initState).history
       = [⟨"ction test() \x7b\x7d", "const x = fun", "S"⟩] := by
  refine ⟨?_, ?_, by decide⟩
  · intro p s e sug st hab h1 h2
    have hcond : (strStartsWith p e.pre && !(p == e.pre)) = true := by
      simp [h1, h2]
    constructor
    · intro h3
      show (if e.id ∈ st.abortedIds then st else _) = _
      rw [if_neg hab, if_pos hcond, if_pos h3]
    · intro h3 _ _
      show (if e.id ∈ st.abortedIds then st else _) = _
      rw [if_neg hab, if_pos hcond, if_neg (by simp [h3])]
  · intro s e sug st hab
    show (if e.id ∈ st.abortedIds then st else _) = _
    rw [if_neg hab, if_neg (by simp)]

/-- Closed instance of C2 with the adjustment hypotheses discharged at a
concrete reused fetch. -/
theorem c2_typed_ahead_adjustment_witness :
    resumeReused "ab" "s" ⟨getCacheKey "a" "s", "a", "s", 3⟩
      (PromiseOutcome.resolved ⟨"bcd", "a", "s"⟩) initState =
    { initState with history := updateSuggestions initState.history
                                  (FillInAtCursorSuggestion.mk "cd" "ab" "s") } := by
  have h := (c2_typed_ahead_adjustment.1 "ab" "s" ⟨getCacheKey "a" "s", "a", "s", 3⟩
    ⟨"bcd", "a", "s"⟩ initState (by decide) (by decide) (by decide)).1 (by decide)
  exact h.trans (by decide)

/-- Claim C3: a non-reusing invocation first aborts and removes every pending fetch
with a different suffix or a diverged prefix, then issues the new fetch; the
concrete diverging-prefix scenario makes two Fetch Adapter calls with the
first fetch cancelled and gone from the registry. -/
theorem c3_divergence_cancellation :
    (∀ p s (st : EngineState),
        findReusablePendingRequest p s st.pending = none →
        (startFetch p s st).1 = createFetch p s (cancelObsolete p s st)
        ∧ (startFetch p s st).1.fetchCalls = st.fetchCalls + 1
        ∧ (∀ e ∈ st.pending, isObsolete p s e = true →
            e.id ∈ (cancelObsolete p s st).abortedIds
            ∧ e ∉ (cancelObsolete p s st).pending))
    ∧ ((startFetch "const x = g" "S2" ((startFetch "const x = f" "S2" initState).1)).1.fetchCalls = 2
       ∧ 0 ∈ (startFetch "const x = g" "S2" ((startFetch "const x = f" "S2" initState).1)).1.abortedIds
       ∧ (startFetch "const x = g" "S2"
            ((startFetch "const x = f" "S2" initState).1)).1.pending.map PendingSuggestion.id
          = [1]) := by
  refine ⟨?_, by decide⟩
  intro p s st h
  refine ⟨?_, ?_, ?_⟩
  · unfold startFetch
    rw [h]
  · unfold startFetch
    rw [h]
    simp [createFetch, cancelObsolete]
  · intro e he hobs
    constructor
    · simp only [cancelObsolete, List.mem_append, List.mem_map]
      right
      exact ⟨e, List.mem_filter.2 ⟨he, hobs⟩, rfl⟩
    · intro hmem
      have hkeep := (List.mem_filter.1 hmem).2
      rw [hobs] at hkeep
      simp at hkeep

/-- Closed instance of C3's cancellation statement at a concrete registry. -/
theorem c3_divergence_cancellation_witness :
    4 ∈ (cancelObsolete "q" "s" { initState with pending := [⟨getCacheKey "a" "t", "a", "t", 4⟩] }).abortedIds
    ∧ (⟨getCacheKey "a" "t", "a", "t", 4⟩ : PendingSuggestion)
        ∉ (cancelObsolete "q" "s" { initState with pending := [⟨getCacheKey "a" "t", "a", "t", 4⟩] }).pending :=
  (c3_divergence_cancellation.1 "q" "s"
      { initState with pending := [⟨getCacheKey "a" "t", "a", "t", 4⟩] }
      (by decide)).2.2 ⟨getCacheKey "a" "t", "a", "t", 4⟩ (by decide) (by decide)

/-- Key-uniqueness of the pending-request registry: at most one entry per
exact cache key. -/
def KeysNodup (st : EngineState) : Prop :=
  (st.pending.map PendingSuggestion.key).Nodup

theorem keys_filter_nodup {reg : List PendingSuggestion} (f : PendingSuggestion → Bool)
    (h : (reg.map PendingSuggestion.key).Nodup) :
    ((reg.filter f).map PendingSuggestion.key).Nodup :=
  h.sublist ((List.filter_sublist reg).map PendingSuggestion.key)

theorem keys_map_replace (reg : List PendingSuggestion) (f : PendingSuggestion) :
    (reg.map (fun e => if e.key == f.key then f else e)).map PendingSuggestion.key
      = reg.map PendingSuggestion.key := by
  induction reg with
  | nil => rfl
  | cons a t ih =>
    simp only [List.map_cons, ih]
    congr 1
    by_cases hk : (a.key == f.key) = true
    · rw [if_pos hk]
      exact (beq_iff_eq.1 hk).symm
    · rw [if_neg hk]

theorem keys_setEntry_nodup {reg : List PendingSuggestion} {f : PendingSuggestion}
    (h : (reg.map PendingSuggestion.key).Nodup) :
    ((setEntry reg f).map PendingSuggestion.key).Nodup := by
  unfold setEntry
  split
  · rw [keys_map_replace]
    exact h
  · next hany =>
    have hnot : f.key ∉ reg.map PendingSuggestion.key := by
      intro hmem
      apply hany
      rw [List.any_eq_true]
      obtain ⟨e, he, hek⟩ := List.mem_map.1 hmem
      exact ⟨e, he, beq_iff_eq.2 hek⟩
    rw [List.map_append, List.nodup_append]
    refine ⟨h, by simp, ?_⟩
    intro a ha hb
    simp only [List.map_cons, List.map_nil, List.mem_singleton] at hb
    subst hb
    exact hnot ha

theorem createFetch_keysNodup (p s : String) (st : EngineState) (h : KeysNodup st) :
    KeysNodup (createFetch p s st) :=
  keys_setEntry_nodup h

theorem cancelObsolete_keysNodup (p s : String) (st : EngineState) (h : KeysNodup st) :
    KeysNodup (cancelObsolete p s st) :=
  keys_filter_nodup _ h

theorem startFetch_keysNodup (p s : String) (st : EngineState) (h : KeysNodup st) :
    KeysNodup (startFetch p s st).1 := by
  unfold startFetch
  cases hf : findReusablePendingRequest p s st.pending with
  | some e => exact h
  | none => exact createFetch_keysNodup p s _ (cancelObsolete_keysNodup p s st h)

theorem settleOwn_pending (f : PendingSuggestion) (o : FetchOutcome) (st : EngineState) :
    (settleOwn f o st).1.pending = eraseKey st.pending f.key := by
  cases o with
  | ok text =>
    simp only [settleOwn]
    split <;> rfl
  | err nm => rfl

theorem settleOwn_keysNodup (f : PendingSuggestion) (o : FetchOutcome) (st : EngineState)
    (h : KeysNodup st) : KeysNodup (settleOwn f o st).1 := by
  show ((settleOwn f o st).1.pending.map PendingSuggestion.key).Nodup
  rw [settleOwn_pending]
  exact keys_filter_nodup _ h

theorem resumeReused_pending_resolved (p s : String) (e : PendingSuggestion)
    (sug : FillInAtCursorSuggestion) (st : EngineState) :
    (resumeReused p s e (PromiseOutcome.resolved sug) st).pending = st.pending := by
  show (if e.id ∈ st.abortedIds then st else _).pending = _
  split
  · rfl
  · split
    · split
      · rfl
      · rfl
    · rfl

theorem resumeReused_keysNodup (p s : String) (e : PendingSuggestion) (o : PromiseOutcome)
    (st : EngineState) (h : KeysNodup st) : KeysNodup (resumeReused p s e o st) := by
  cases o with
  | resolved sug =>
    show ((resumeReused p s e (PromiseOutcome.resolved sug) st).pending.map PendingSuggestion.key).Nodup
    rw [resumeReused_pending_resolved]
    exact h
  | rejected nm =>
    show KeysNodup (if nm = "AbortError" then st else _)
    split
    · exact h
    · exact createFetch_keysNodup p s _ (cancelObsolete_keysNodup p s _ h)

theorem step_keysNodup (ev : Event) (st : EngineState) (h : KeysNodup st) :
    KeysNodup (step ev st) := by
  cases ev with
  | schedule => exact h
  | fire p s =>
    show KeysNodup (fireDebounce p s st)
    unfold fireDebounce
    cases st.armed with
    | none => exact h
    | some pid => exact startFetch_keysNodup p s { st with armed := none } h
  | trigger p s => exact startFetch_keysNodup p s st h
  | settle f o => exact settleOwn_keysNodup f o st h
  | resume p s e o => exact resumeReused_keysNodup p s e o st h
  | resumeOwnEv o =>
    show KeysNodup (resumeOwn o st)
    cases o with
    | resolved sug => exact h
    | rejected nm =>
      show KeysNodup (if nm = "AbortError" then st else _)
      split
      · exact h
      · exact h
  | disposeEv => exact List.nodup_nil

/-- Claim C5: in every reachable state the pending-request registry holds at most
one entry per exact cache key, and the settlement of a pending fetch removes
its registry entry whatever the outcome — success, failure, or cancellation. -/
theorem c5_registry_unique_and_cleanup :
    (∀ evs : List Event, KeysNodup (run evs initState))
    ∧ (∀ (f : PendingSuggestion) (o : FetchOutcome) (st : EngineState),
        (settleOwn f o st).1.pending = eraseKey st.pending f.key) := by
  constructor
  · intro evs
    have hrun : ∀ (l : List Event) (s0 : EngineState), KeysNodup s0 → KeysNodup (run l s0) := by
      intro l
      induction l with
      | nil => exact fun s0 h => h
      | cons ev t ih => exact fun s0 h => ih _ (step_keysNodup ev s0 h)
    exact hrun evs initState List.nodup_nil
  · exact settleOwn_pending

/-- The pending fetch created by the first trigger of the C7 scenario. -/
def c7Pending : PendingSuggestion :=
  ⟨getCacheKey "const x = f" "S", "const x = f", "S", 0⟩

/-- The C7 scenario state: one fetch in flight, then `dispose` aborts it
before its backend call returns. -/
def c7St : EngineState :=
  dispose ((startFetch "const x = f" "S" initState).1)

/-- The settlement of the aborted fetch after its backend call resolves. -/
def c7After : EngineState × PromiseOutcome :=
  settleOwn c7Pending (FetchOutcome.ok "unction") c7St

/-- Claim C7 (divergence witness): when the aborted fetch's backend call resolves,
the promise rejects with the source's `Error("Request aborted after
completion")`, whose `name` is `"Error"`, not `"AbortError"`; so the
creating cycle's catch logs it with `console.error`, and an awaiting reused
cycle logs a warning and issues a fresh Fetch Adapter call instead of
stopping silently.  The cancellation failure is therefore not swallowed
unconditionally, contradicting the stated failure semantics. -/
theorem c7_cancellation_failure_logged :
    c7After.2 = PromiseOutcome.rejected "Error"
    ∧ (resumeOwn c7After.2 c7After.1).errorLog = 1
    ∧ c7After.1.history = []
    ∧ (resumeReused "const x = f" "S" c7Pending c7After.2 c7After.1).warnLog = 1
    ∧ (resumeReused "const x = f" "S" c7Pending c7After.2 c7After.1).fetchCalls = 2 := by
  decide

/-- Claim C8: a fetch that completes successfully with empty text appends the
empty suggestion for its context to the history; the matcher then answers
that exact context with the empty text, and the provider's fast path returns
an empty completion list with the state untouched — no new Fetch Adapter
call. -/
theorem c8_empty_result_cached :
    ∀ (f : PendingSuggestion) (st : EngineState),
      f.id ∉ st.abortedIds →
      (∀ e ∈ st.history, e.pre ≠ f.pre ∨ e.suffix ≠ f.suffix) →
      (∃ h', (settleOwn f (FetchOutcome.ok "") st).1.history
               = h' ++ [⟨"", f.pre, f.suffix⟩])
      ∧ findMatchingSuggestion f.pre f.suffix
          (settleOwn f (FetchOutcome.ok "") st).1.history = some ""
      ∧ provideStep f.pre f.suffix (settleOwn f (FetchOutcome.ok "") st).1 =
          (some [], (settleOwn f (FetchOutcome.ok "") st).1) := by
  intro f st hab hfresh
  have hdup : ¬ isDuplicate st.history ⟨"", f.pre, f.suffix⟩ := by
    rintro ⟨e, he, -, hp, hs⟩
    rcases hfresh e he with h | h
    · exact h hp
    · exact h hs
  have hhist : (settleOwn f (FetchOutcome.ok "") st).1.history
      = updateSuggestions st.history ⟨"", f.pre, f.suffix⟩ := by
    simp only [settleOwn]
    rw [if_neg hab]
  have hend : ∃ h', updateSuggestions st.history ⟨"", f.pre, f.suffix⟩
      = h' ++ [⟨"", f.pre, f.suffix⟩] := by
    unfold updateSuggestions
    rw [if_neg hdup]
    split
    · next hgt =>
      refine ⟨st.history.tail, ?_⟩
      cases hh : st.history with
      | nil =>
        rw [hh] at hgt
        simp [MAX_SUGGESTIONS_HISTORY] at hgt
      | cons a t => simp
    · exact ⟨st.history, rfl⟩
  obtain ⟨h', hh'⟩ := hend
  have hmatch : findMatchingSuggestion f.pre f.suffix (h' ++ [⟨"", f.pre, f.suffix⟩]) = some "" := by
    unfold findMatchingSuggestion
    rw [List.reverse_append]
    show findMatchingSuggestionAux f.pre f.suffix
      (⟨"", f.pre, f.suffix⟩ :: h'.reverse) = some ""
    unfold findMatchingSuggestionAux
    rw [show matchEntry f.pre f.suffix ⟨"", f.pre, f.suffix⟩ = some "" from by
      unfold matchEntry
      rw [if_pos ⟨rfl, rfl⟩]]
  refine ⟨⟨h', by rw [hhist, hh']⟩, ?_, ?_⟩
  · rw [hhist, hh']
    exact hmatch
  · unfold provideStep
    rw [hhist, hh', hmatch]
    rfl

/-- The C8 witness state: one fetch in flight for a fresh context. -/
def c8St : EngineState := (startFetch "p8" "s8" initState).1

/-- Closed instance of C8: the empty result for the in-flight context is
cached and answers the identical later context. -/
theorem c8_empty_result_cached_witness :
    findMatchingSuggestion "p8" "s8"
      (settleOwn ⟨getCacheKey "p8" "s8", "p8", "s8", 0⟩ (FetchOutcome.ok "") c8St).1.history
      = some "" :=
  (c8_empty_result_cached ⟨getCacheKey "p8" "s8", "p8", "s8", 0⟩ c8St
    (by decide) (by decide)).2.1

/-- Claim C9: `dispose` is idempotent and total, cancels the armed debounce timer
without firing it (no fetch call, no history change), aborts every pending
fetch's controller and clears the registry; afterwards no fetch that was in
flight at disposal time can ever append to the history: its own settlement
leaves the history unchanged and never resolves, and a reused-awaiter
resumption on a rejection never touches the history either. -/
theorem c9_dispose_cleanup :
    ∀ st : EngineState,
      dispose (dispose st) = dispose st
      ∧ (dispose st).armed = none
      ∧ (dispose st).pending = []
      ∧ (dispose st).fetchCalls = st.fetchCalls
      ∧ (dispose st).history = st.history
      ∧ (∀ e ∈ st.pending, e.id ∈ (dispose st).abortedIds)
      ∧ (∀ e ∈ st.pending, ∀ o : FetchOutcome,
          (settleOwn e o (dispose st)).1.history = (dispose st).history
          ∧ (∀ sug, (settleOwn e o (dispose st)).2 ≠ PromiseOutcome.resolved sug))
      ∧ (∀ p s (e : PendingSuggestion) nm (st' : EngineState),
          (resumeReused p s e (PromiseOutcome.rejected nm) st').history = st'.history) := by
  intro st
  have hmem : ∀ e ∈ st.pending, e.id ∈ (dispose st).abortedIds := by
    intro e he
    simp only [dispose, List.mem_append, List.mem_map]
    right
    exact ⟨e, he, rfl⟩
  refine ⟨by simp [dispose], rfl, rfl, rfl, rfl, hmem, ?_, ?_⟩
  · intro e he o
    have hid : e.id ∈ (dispose st).abortedIds := hmem e he
    cases o with
    | ok text =>
      constructor
      · simp only [settleOwn]
        rw [if_pos hid]
      · intro sug
        simp only [settleOwn]
        rw [if_pos hid]
        simp
    | err nm => exact ⟨rfl, by simp [settleOwn]⟩
  · intro p s e nm st'
    show (if nm = "AbortError" then st' else _).history = st'.history
    split
    · rfl
    · rfl

/-- The C9 witness state: one fetch in flight. -/
def stC9 : EngineState :=
  { initState with pending := [⟨getCacheKey "x" "y", "x", "y", 7⟩] }

/-- Closed instance of C9 at a concrete mid-flight state. -/
theorem c9_dispose_cleanup_witness :
    dispose (dispose stC9) = dispose stC9 ∧ 7 ∈ (dispose stC9).abortedIds :=
  ⟨(c9_dispose_cleanup stC9).1,
   (c9_dispose_cleanup stC9).2.2.2.2.2.1 ⟨getCacheKey "x" "y", "x", "y", 7⟩ (by decide)⟩

/-- A debounce promise `pid` has been superseded: its id was already issued,
it is no longer the armed timer's promise, and it has never settled. -/
def SupersededAt (pid : Nat) (st : EngineState) : Prop :=
  pid < st.nextPromiseId ∧ st.armed ≠ some pid ∧ pid ∉ st.settled

theorem startFetch_sched_fields (p s : String) (st : EngineState) :
    (startFetch p s st).1.armed = st.armed
    ∧ (startFetch p s st).1.settled = st.settled
    ∧ (startFetch p s st).1.nextPromiseId = st.nextPromiseId := by
  unfold startFetch
  cases hf : findReusablePendingRequest p s st.pending with
  | some e => exact ⟨rfl, rfl, rfl⟩
  | none => exact ⟨rfl, rfl, rfl⟩

theorem settleOwn_sched_fields (f : PendingSuggestion) (o : FetchOutcome) (st : EngineState) :
    (settleOwn f o st).1.armed = st.armed
    ∧ (settleOwn f o st).1.settled = st.settled
    ∧ (settleOwn f o st).1.nextPromiseId = st.nextPromiseId := by
  cases o with
  | ok text =>
    simp only [settleOwn]
    split
    · exact ⟨rfl, rfl, rfl⟩
    · exact ⟨rfl, rfl, rfl⟩
  | err nm => exact ⟨rfl, rfl, rfl⟩

theorem resumeReused_sched_fields (p s : String) (e : PendingSuggestion)
    (o : PromiseOutcome) (st : EngineState) :
    (resumeReused p s e o st).armed = st.armed
    ∧ (resumeReused p s e o st).settled = st.settled
    ∧ (resumeReused p s e o st).nextPromiseId = st.nextPromiseId := by
  cases o with
  | resolved sug =>
    simp only [resumeReused]
    split
    · exact ⟨rfl, rfl, rfl⟩
    · split
      · split
        · exact ⟨rfl, rfl, rfl⟩
        · exact ⟨rfl, rfl, rfl⟩
      · exact ⟨rfl, rfl, rfl⟩
  | rejected nm =>
    simp only [resumeReused]
    split
    · exact ⟨rfl, rfl, rfl⟩
    · exact ⟨rfl, rfl, rfl⟩

theorem resumeOwn_sched_fields (o : PromiseOutcome) (st : EngineState) :
    (resumeOwn o st).armed = st.armed
    ∧ (resumeOwn o st).settled = st.settled
    ∧ (resumeOwn o st).nextPromiseId = st.nextPromiseId := by
  cases o with
  | resolved sug => exact ⟨rfl, rfl, rfl⟩
  | rejected nm =>
    simp only [resumeOwn]
    split
    · exact ⟨rfl, rfl, rfl⟩
    · exact ⟨rfl, rfl, rfl⟩

theorem step_superseded (ev : Event) (st : EngineState) (pid : Nat)
    (h : SupersededAt pid st) : SupersededAt pid (step ev st) := by
  obtain ⟨h1, h2, h3⟩ := h
  cases ev with
  | schedule =>
    refine ⟨?_, ?_, h3⟩
    · show pid < st.nextPromiseId + 1
      omega
    · show ¬ (some st.nextPromiseId = some pid)
      intro he
      have := Option.some.inj he
      omega
  | fire p s =>
    show SupersededAt pid (fireDebounce p s st)
    unfold fireDebounce
    cases harm : st.armed with
    | none => exact ⟨h1, h2, h3⟩
    | some pid0 =>
      have hne : pid0 ≠ pid := fun he => h2 (by rw [harm, he])
      obtain ⟨fa, fs, fn⟩ := startFetch_sched_fields p s { st with armed := none }
      refine ⟨?_, ?_, ?_⟩
      · show pid < _
        rw [fn]
        exact h1
      · show ¬ (_ = some pid)
        rw [fa]
        intro he
        exact Option.noConfusion he
      · show pid ∉ pid0 :: _
        rw [fs]
        intro hmem
        rcases List.mem_cons.1 hmem with he | hm
        · exact hne he.symm
        · exact h3 hm
  | trigger p s =>
    obtain ⟨fa, fs, fn⟩ := startFetch_sched_fields p s st
    show SupersededAt pid (startFetch p s st).1
    exact ⟨by rw [fn]; exact h1, by rw [fa]; exact h2, by rw [fs]; exact h3⟩
  | settle f o =>
    obtain ⟨fa, fs, fn⟩ := settleOwn_sched_fields f o st
    show SupersededAt pid (settleOwn f o st).1
    exact ⟨by rw [fn]; exact h1, by rw [fa]; exact h2, by rw [fs]; exact h3⟩
  | resume p s e o =>
    obtain ⟨fa, fs, fn⟩ := resumeReused_sched_fields p s e o st
    show SupersededAt pid (resumeReused p s e o st)
    exact ⟨by rw [fn]; exact h1, by rw [fa]; exact h2, by rw [fs]; exact h3⟩
  | resumeOwnEv o =>
    obtain ⟨fa, fs, fn⟩ := resumeOwn_sched_fields o st
    show SupersededAt pid (resumeOwn o st)
    exact ⟨by rw [fn]; exact h1, by rw [fa]; exact h2, by rw [fs]; exact h3⟩
  | disposeEv =>
    refine ⟨h1, ?_, h3⟩
    intro he
    exact Option.noConfusion he

/-- Claim C10: once a `debouncedFetchAndCacheSuggestion` call's armed timer is
cleared by a later call, the superseded call's promise never settles under
any further behaviour of the engine — it is never re-armed and never enters
the settled set — so a `provideInlineCompletionItems_Internal` invocation
awaiting it never resumes to return a completion list. -/
theorem c10_superseded_promise_never_settles :
    ∀ (st : EngineState) (pid : Nat),
      st.armed = some pid → pid ∉ st.settled → pid < st.nextPromiseId →
      ∀ evs : List Event,
        (run evs (scheduleDebounce st)).armed ≠ some pid
        ∧ pid ∉ (run evs (scheduleDebounce st)).settled := by
  intro st pid harm hset hlt evs
  have h0 : SupersededAt pid (scheduleDebounce st) := by
    refine ⟨?_, ?_, hset⟩
    · show pid < st.nextPromiseId + 1
      omega
    · show ¬ (some st.nextPromiseId = some pid)
      intro he
      have := Option.some.inj he
      omega
  have hrun : ∀ (l : List Event) (s0 : EngineState),
      SupersededAt pid s0 → SupersededAt pid (run l s0) := by
    intro l
    induction l with
    | nil => exact fun s0 h => h
    | cons ev t ih => exact fun s0 h => ih _ (step_superseded ev s0 pid h)
  obtain ⟨-, h2, h3⟩ := hrun evs _ h0
  exact ⟨h2, h3⟩

/-- Closed instance of C10: promise 0 is superseded by a second scheduling
call and stays unsettled across later fires and schedules. -/
theorem c10_superseded_promise_never_settles_witness :
    (run [Event.fire "a" "b", Event.schedule, Event.fire "c" "d"]
       (scheduleDebounce (scheduleDebounce initState))).armed ≠ some 0
    ∧ 0 ∉ (run [Event.fire "a" "b", Event.schedule, Event.fire "c" "d"]
       (scheduleDebounce (scheduleDebounce initState))).settled :=
  c10_superseded_promise_never_settles (scheduleDebounce initState) 0
    (by decide) (by decide) (by decide)
    [Event.fire "a" "b", Event.schedule, Event.fire "c" "d"]
